import Mathlib

/-!
# Verification of the svennescamping-backend transaction engine

A shallow embedding, in Lean 4, of the transaction aggregation and
enrichment engine of `rogerwesterbo/svennescamping-backend`:

* the Go `strings` helpers the code relies on (ASCII semantics),
* the price service (`internal/services/prices/price_service.go`),
* the status normalization helpers
  (`pkg/helpers/statushelpers/status_helpers.go` and `pkg/consts`),
* the transaction repository (`internal/repository`),
* the transaction service enrichment step (`internal/services`).

Go `float64` amounts are modelled as `ℚ`, `time.Time` and
`time.Duration` as `Int` (nanoseconds), fallible Go functions as
`Except String`.  The `InMemoryCache` wrapper over the external
go-cache library is embedded from the source, with the library's
TTL-aware store modelled explicitly and threaded through the repository
operations together with the current instant.
-/

/-! ## ASCII models of the Go `strings` package helpers -/

namespace strings

/-- Model of Go `strings.ToLower` (ASCII letters only). -/
def ToLower (s : String) : String :=
  ⟨s.data.map Char.toLower⟩

/-- Model of Go `strings.ToUpper` (ASCII letters only). -/
def ToUpper (s : String) : String :=
  ⟨s.data.map Char.toUpper⟩

/-- Drop elements satisfying `p` from the end of a list. -/
def dropRightWhileList (p : Char → Bool) (cs : List Char) : List Char :=
  (cs.reverse.dropWhile p).reverse

/-- Model of Go `strings.TrimSpace`: remove leading and trailing whitespace. -/
def TrimSpace (s : String) : String :=
  ⟨dropRightWhileList Char.isWhitespace (s.data.dropWhile Char.isWhitespace)⟩

/-- Model of Go `strings.Trim s cutset`: remove leading and trailing
characters that occur in `cutset`. -/
def Trim (s cutset : String) : String :=
  ⟨dropRightWhileList (fun c => cutset.data.contains c)
    (s.data.dropWhile (fun c => cutset.data.contains c))⟩

/-- Does `sub` occur as a contiguous sublist of `s`? -/
def containsSub (sub : List Char) : List Char → Bool
  | [] => sub.isPrefixOf []
  | c :: rest => sub.isPrefixOf (c :: rest) || containsSub sub rest

/-- Model of Go `strings.Contains s substr`. -/
def Contains (s substr : String) : Bool :=
  containsSub substr.data s.data

/-- Model of Go `strings.EqualFold` (ASCII case folding). -/
def EqualFold (a b : String) : Bool :=
  ToLower a == ToLower b

/-- Model of Go `strings.HasPrefix s pre`. -/
def HasPrefix (s pre : String) : Bool :=
  pre.data.isPrefixOf s.data

/-- Model of Go `strings.Fields`: split on whitespace runs, dropping
empty words. -/
def Fields (s : String) : List String :=
  ((List.splitOnP Char.isWhitespace s.data).filter (fun w => !w.isEmpty)).map String.mk

end strings

/-! ## Price service (`internal/services/prices/price_service.go`) -/

namespace prices

/-- `Price` represents a price entry from the CSV
(`internal/services/prices/price_service.go`). -/
structure Price where
  product : String
  price : ℚ
  currency : String
deriving DecidableEq, Repr

/-- `GetProductsByPrice` returns all products with the specified price;
it errors when none match. -/
def GetProductsByPrice (prices : List Price) (price : ℚ) : Except String (List Price) :=
  let matchingProducts := prices.filter (fun p => p.price == price)
  if matchingProducts.isEmpty then
    .error "no products found with price"
  else
    .ok matchingProducts

/-- `GetProductsByPriceRange` returns all products within a price range
(inclusive); it errors when the range is inverted. -/
def GetProductsByPriceRange (prices : List Price) (minPrice maxPrice : ℚ) :
    Except String (List Price) :=
  if minPrice > maxPrice then
    .error "minimum price cannot be greater than maximum price"
  else
    .ok (prices.filter (fun p => minPrice ≤ p.price && p.price ≤ maxPrice))

/-- One description-word/product-word comparison from the inner loop of
`fuzzyMatch`: the containment check on cleaned words of length `> 2`,
followed by the special cases for numbers and common abbreviations. -/
def wordPairHit (cleanDWord cleanPWord : String) : Bool :=
  (cleanPWord.length > 2 &&
    (strings.Contains cleanDWord cleanPWord || strings.Contains cleanPWord cleanDWord)) ||
  (cleanPWord == "1-2" && (cleanDWord == "2" || cleanDWord == "1")) ||
  (cleanPWord == "3" && (cleanDWord == "3" || cleanDWord == "three")) ||
  (cleanPWord == "4" && (cleanDWord == "4" || cleanDWord == "four")) ||
  (cleanPWord == "pers" && (cleanDWord == "people" || cleanDWord == "person"))

/-- Word cleanup in `fuzzyMatch`: trim the punctuation characters
slash, dash, comma and dot from both ends of the word. -/
def cleanWord (w : String) : String :=
  strings.Trim w "/-,."

/-- `fuzzyMatch` performs fuzzy string matching between transaction
description and product name.  The nested loop with `break` counts the
description words for which some product word comparison succeeds.  The
Go threshold test `float64(matchCount) >= float64(len(prodWords))*0.4`
is the exact rational comparison `matchCount ≥ len·(2/5)`, embedded in
the equivalent integer form `5·matchCount ≥ 2·len` (see
`fuzzyMatch_threshold_iff` for the equivalence with the `2/5` form). -/
def fuzzyMatch (description productName : String) : Bool :=
  let desc := strings.ToLower (strings.TrimSpace description)
  let prod := strings.ToLower (strings.TrimSpace productName)
  if desc == "" || prod == "" then false
  else if desc == prod then true
  else if strings.Contains desc prod || strings.Contains prod desc then true
  else
    let descWords := strings.Fields desc
    let prodWords := strings.Fields prod
    if prodWords.isEmpty then false
    else
      let matchCount := descWords.countP
        (fun dWord => prodWords.any (fun pWord => wordPairHit (cleanWord dWord) (cleanWord pWord)))
      decide (5 * matchCount ≥ 2 * prodWords.length)

/-- The closest-price loop at the end of strategy 4 of
`FindBestProductMatch`: the running state is `(closest, minDiff)` and an
element replaces the state only when its absolute difference is strictly
smaller. -/
def closestLoop (amount : ℚ) : List Price → Option Price × ℚ → Option Price × ℚ
  | [], acc => acc
  | p :: rest, (closest, minDiff) =>
    let diff := |amount - p.price|
    if diff < minDiff then closestLoop amount rest (some p, diff)
    else closestLoop amount rest (closest, minDiff)

/-- `FindBestProductMatch` attempts to find the best product match for a
transaction, via the four-strategy cascade of
`internal/services/prices/price_service.go`. -/
def FindBestProductMatch (prices : List Price) (amount : ℚ) (description : String) :
    Option Price :=
  let productsE := GetProductsByPrice prices amount
  -- Strategy 1: exactly one exact price match
  let s1 : Option Price :=
    match productsE with
    | .ok products => if products.length = 1 then products.head? else none
    | .error _ => none
  match s1 with
  | some p => some p
  | none =>
  -- Strategy 2: fuzzy description matching over the whole list
  let s2 : Option Price :=
    if description ≠ "" then prices.find? (fun p => fuzzyMatch description p.product)
    else none
  match s2 with
  | some p => some p
  | none =>
  -- Strategy 3: several exact price matches, disambiguated by description
  let s3 : Option Price :=
    match productsE with
    | .ok products =>
      if products.length > 1 ∧ description ≠ "" then
        match products.find? (fun p => fuzzyMatch description p.product) with
        | some p => some p
        | none => products.head?
      else none
    | .error _ => none
  match s3 with
  | some p => some p
  | none =>
  -- Strategy 4: price range matching (±5% tolerance)
  let tolerance := amount * (5 / 100)
  match GetProductsByPriceRange prices (amount - tolerance) (amount + tolerance) with
  | .ok rangeProducts =>
    if rangeProducts.length > 0 then
      let fuzzy : Option Price :=
        if description ≠ "" then rangeProducts.find? (fun p => fuzzyMatch description p.product)
        else none
      match fuzzy with
      | some p => some p
      | none => (closestLoop amount rangeProducts (none, tolerance + 1)).1
    else none
  | .error _ => none

/-- Numeric value of a digit run. -/
def digitsVal (cs : List Char) : Nat :=
  cs.foldl (fun n c => n * 10 + (c.toNat - 48)) 0

/-- Model of `strconv.ParseFloat` restricted to plain decimal literals
(optional sign, digits, optional fractional part); exponent, hex and
inf/NaN forms of Go are not needed by the price list contract. -/
def parseFloat (s : String) : Option ℚ :=
  let parseUnsigned : List Char → Option ℚ := fun cs =>
    match List.splitOnP (fun c => c == '.') cs with
    | [i] => if !i.isEmpty && i.all Char.isDigit then some (digitsVal i : ℚ) else none
    | [i, f] =>
      if (!i.isEmpty || !f.isEmpty) && i.all Char.isDigit && f.all Char.isDigit then
        some ((digitsVal i : ℚ) + (digitsVal f : ℚ) / ((10 : ℚ) ^ f.length))
      else none
    | _ => none
  match s.data with
  | '-' :: rest => (parseUnsigned rest).map Neg.neg
  | '+' :: rest => parseUnsigned rest
  | cs => parseUnsigned cs

/-- Parsing of one data row of the CSV: exactly 3 columns, the second a
valid decimal, product and currency trimmed. -/
def parseRecord (record : List String) : Except String Price :=
  match record with
  | [product, priceStr, currency] =>
    match parseFloat priceStr with
    | some price => .ok ⟨strings.TrimSpace product, price, strings.TrimSpace currency⟩
    | none => .error "invalid price value"
  | _ => .error "invalid record: expected 3 columns"

/-- `loadPricesFromCSV`, modelled from the point where the CSV reader
has produced the list of records: fewer than two records is an error,
the header row is skipped, and every data row must parse. -/
def loadPricesFromCSV (records : List (List String)) : Except String (List Price) :=
  if records.length < 2 then
    .error "CSV file must contain at least header and one data row"
  else
    (records.drop 1).mapM parseRecord

/-- `NewPriceService` loads the price list and wraps any load failure. -/
def NewPriceService (records : List (List String)) : Except String (List Price) :=
  match loadPricesFromCSV records with
  | .ok prices => .ok prices
  | .error e => .error ("failed to load prices from CSV: " ++ e)

end prices

/-! ## Constants (`pkg/consts`) and status helpers
(`pkg/helpers/statushelpers/status_helpers.go`)

The Go status mapping tables are `map[string]string` literals; they are
modelled as association lists in declaration order.  Within each table
the keys are pairwise distinct even case-insensitively, so the random
iteration order of a Go map never influences the result of the
`EqualFold` fallback scans below. -/

namespace statushelpers

/-- `consts.StripeStatusMapping`. -/
def StripeStatusMapping : List (String × String) := [
  ("requires_payment_method", "pending"),
  ("requires_confirmation", "pending"),
  ("requires_action", "pending"),
  ("processing", "processing"),
  ("requires_capture", "processing"),
  ("succeeded", "succeeded"),
  ("canceled", "cancelled"),
  ("payment_failed", "failed"),
  ("refunded", "refunded"),
  ("partially_refunded", "refunded")]

/-- `consts.VippsStatusMapping`. -/
def VippsStatusMapping : List (String × String) := [
  ("INITIATE", "pending"),
  ("REGISTER", "pending"),
  ("RESERVE", "processing"),
  ("CAPTURE", "succeeded"),
  ("SALE", "succeeded"),
  ("CANCEL", "cancelled"),
  ("VOID", "cancelled"),
  ("REFUND", "refunded"),
  ("FAILED", "failed"),
  ("REJECTED", "failed"),
  ("EXPIRED", "expired"),
  ("ABANDONED", "cancelled")]

/-- `consts.ZettleStatusMapping`. -/
def ZettleStatusMapping : List (String × String) := [
  ("PENDING", "pending"),
  ("COMPLETED", "succeeded"),
  ("FAILED", "failed"),
  ("CANCELLED", "cancelled"),
  ("REFUNDED", "refunded"),
  ("VOIDED", "cancelled"),
  ("PROCESSING", "processing"),
  ("AUTHORIZED", "processing"),
  ("CAPTURED", "succeeded")]

/-- `normalizeStripeStatus`: look the lowercased status up in the
mapping, then fall back to an `EqualFold` scan over the table, then to
`"unknown"`. -/
def normalizeStripeStatus (status : String) : String :=
  let lowerStatus := strings.ToLower status
  match StripeStatusMapping.lookup lowerStatus with
  | some mappedStatus => mappedStatus
  | none =>
    match StripeStatusMapping.find? (fun kv => strings.EqualFold status kv.fst) with
    | some kv => kv.snd
    | none => "unknown"

/-- `normalizeVippsStatus`: exact lookup of the (already uppercased)
status, then an `EqualFold` scan of the lowercased status against the
table, then `"unknown"`. -/
def normalizeVippsStatus (status : String) : String :=
  match VippsStatusMapping.lookup status with
  | some mappedStatus => mappedStatus
  | none =>
    match VippsStatusMapping.find?
        (fun kv => strings.EqualFold (strings.ToLower status) kv.fst) with
    | some kv => kv.snd
    | none => "unknown"

/-- `normalizeZettleStatus`: same two-pass shape as
`normalizeVippsStatus` over the Zettle table. -/
def normalizeZettleStatus (status : String) : String :=
  match ZettleStatusMapping.lookup status with
  | some mappedStatus => mappedStatus
  | none =>
    match ZettleStatusMapping.find?
        (fun kv => strings.EqualFold (strings.ToLower status) kv.fst) with
    | some kv => kv.snd
    | none => "unknown"

/-- `inferStatusFromCommonNames` tries to guess the unified status from
common payment terms, scanning keyword groups in a fixed order. -/
def inferStatusFromCommonNames (status : String) : String :=
  let lowerStatus := strings.ToLower status
  if strings.Contains lowerStatus "success" ||
      strings.Contains lowerStatus "complete" ||
      strings.Contains lowerStatus "paid" ||
      strings.Contains lowerStatus "capture" then "succeeded"
  else if strings.Contains lowerStatus "pending" ||
      strings.Contains lowerStatus "waiting" ||
      strings.Contains lowerStatus "initiated" then "pending"
  else if strings.Contains lowerStatus "processing" ||
      strings.Contains lowerStatus "authorized" then "processing"
  else if strings.Contains lowerStatus "fail" ||
      strings.Contains lowerStatus "reject" ||
      strings.Contains lowerStatus "decline" then "failed"
  else if strings.Contains lowerStatus "cancel" ||
      strings.Contains lowerStatus "void" ||
      strings.Contains lowerStatus "abandon" then "cancelled"
  else if strings.Contains lowerStatus "refund" then "refunded"
  else if strings.Contains lowerStatus "expir" ||
      strings.Contains lowerStatus "timeout" then "expired"
  else "unknown"

/-- `NormalizeTransactionStatus` converts a provider-specific status to
the unified status: trim and uppercase, dispatch on the lowercased
source, and fall back to keyword inference for unknown sources. -/
def NormalizeTransactionStatus (providerStatus source : String) : String :=
  let normalizedStatus := strings.ToUpper (strings.TrimSpace providerStatus)
  let lowerSource := strings.ToLower source
  if lowerSource == "stripe" then normalizeStripeStatus normalizedStatus
  else if lowerSource == "vipps" then normalizeVippsStatus normalizedStatus
  else if lowerSource == "zettle" then normalizeZettleStatus normalizedStatus
  else inferStatusFromCommonNames normalizedStatus

end statushelpers

/-! ## Transaction entity (`pkg/entities/transaction.go`) and the cache
(`internal/cache.InMemoryCache`, in `role_service.go` lines 152-255)

The two `any` fields of the Go entity hold opaque provider payloads; per
the spec design note they are modelled as opaque string blobs.

`InMemoryCache` wraps the external dependency
`github.com/patrickmn/go-cache`; the wrapper methods are embedded from
the source, and the library's `Set`/`Get`/`Items` are modelled from its
behavior: every entry carries an absolute expiration instant (`0` when
it never expires), set at write time from the current clock, and
`Get`/`Items` treat entries past that instant as absent.  Each Go call
reads `time.Now()`; the embedding passes the current instant `now`
explicitly and treats one repository operation as instantaneous.  The
underlying Go map is modelled as an association list whose
key-uniqueness `Set` maintains; Go map iteration order is unspecified,
and every consumer in the embedded code either looks up a single key or
re-sorts / ignores the order, so the list order carries no meaning. -/

namespace repo

/-- The unified transaction record (`pkg/entities/transaction.go`).
Amounts are major currency units, modelled as `ℚ`; timestamps are
nanoseconds, modelled as `Int`. -/
structure Transaction where
  id : String
  externalId : String
  source : String
  amount : ℚ
  currency : String
  status : String
  createdAt : Int
  customerId : String
  description : String
  paymentMethod : String
  receiptUrl : String
  metadata : List (String × String)
  transactionType : String
  dataBlob : Option String
  transferDataBlob : Option String
  cachedAt : Int
  product : Option String
  productPrice : Option ℚ
deriving DecidableEq, Repr

/-- One nanosecond-count hour, as in Go `time.Hour`. -/
def Hour : Int := 3600 * 1000000000

/-- A value stored in the go-cache store, which Go types as
`interface{}`: this repository stores transactions (under
`transaction:` keys) and price entries (under `price:` keys). -/
inductive CacheValue where
  | transaction (t : Transaction)
  | price (p : prices.Price)
deriving DecidableEq, Repr

/-- One item of the go-cache store: the stored object and its absolute
expiration instant in nanoseconds (`0` when the entry never expires, as
written by `Set` for non-positive durations). -/
structure Item where
  object : CacheValue
  expiration : Int
deriving DecidableEq, Repr

/-- The go-cache store (external dependency `patrickmn/go-cache`,
modelled from its behavior): the configured default expiration and the
keyed items; the cleanup janitor only evicts entries `Get`/`Items`
already treat as absent, so it has no observable effect and is not
modelled.  The wiring (`InitializeClients`) constructs it with a 24h
default expiration. -/
structure GoCache where
  defaultExpiration : Int
  items : List (String × Item)
deriving DecidableEq, Repr

/-- go-cache `Set`: a zero duration means the configured default, a
positive duration becomes the absolute deadline `now + d`, anything
else (go-cache `NoExpiration`) stores deadline `0`; the key is
overwritten if present. -/
def GoCache.Set (c : GoCache) (now : Int) (k : String) (x : CacheValue) (d : Int) : GoCache :=
  let d := if d = 0 then c.defaultExpiration else d
  let e : Int := if d > 0 then now + d else 0
  if c.items.any (fun kv => kv.fst == k) then
    { c with items := c.items.map (fun kv => if kv.fst == k then (k, ⟨x, e⟩) else kv) }
  else
    { c with items := c.items ++ [(k, ⟨x, e⟩)] }

/-- go-cache `Get`: a missing key, or one whose positive deadline lies
strictly in the past, is not found. -/
def GoCache.Get (c : GoCache) (now : Int) (k : String) : Option CacheValue :=
  match c.items.find? (fun kv => kv.fst == k) with
  | none => none
  | some kv =>
    if kv.snd.expiration > 0 ∧ now > kv.snd.expiration then none
    else some kv.snd.object

/-- go-cache `Items`: every item whose positive deadline has not
strictly passed. -/
def GoCache.Items (c : GoCache) (now : Int) : List (String × Item) :=
  c.items.filter (fun kv => !(kv.snd.expiration > 0 && now > kv.snd.expiration))

/-- `InMemoryCache.SetTransaction`: prefix the key with `transaction:`
and store via go-cache with the given expiration. -/
def InMemoryCache.SetTransaction (c : GoCache) (now : Int) (key : String)
    (transaction : Transaction) (expiration : Int) : GoCache :=
  c.Set now ("transaction:" ++ key) (.transaction transaction) expiration

/-- `InMemoryCache.GetTransaction`: prefixed go-cache lookup followed by
the type assertion on the stored object. -/
def InMemoryCache.GetTransaction (c : GoCache) (now : Int) (key : String) :
    Option Transaction :=
  match c.Get now ("transaction:" ++ key) with
  | some (.transaction t) => some t
  | _ => none

/-- `InMemoryCache.GetTransactions`: all live items whose key carries
the `transaction:` prefix and contains the pattern (the empty pattern
matches everything), type-asserted to transactions. -/
def InMemoryCache.GetTransactions (c : GoCache) (now : Int) (pattern : String) :
    List Transaction :=
  (c.Items now).filterMap (fun kv =>
    if strings.HasPrefix kv.fst "transaction:" then
      if pattern == "" || strings.Contains kv.fst pattern then
        match kv.snd.object with
        | .transaction t => some t
        | .price _ => none
      else none
    else none)

/-! ## Transaction repository (`internal/repository`, `src/unnamed/part_004`) -/

/-- Transaction limits from `pkg/consts`. -/
def TRANSACTION_LIMIT_MIN : Int := 1

/-- Default transaction limit from `pkg/consts`. -/
def TRANSACTION_LIMIT_DEFAULT : Int := 25

/-- Maximum transaction limit from `pkg/consts`. -/
def TRANSACTION_LIMIT_MAX : Int := 1000

/-- A provider adapter (`pkg/interfaces.Transactions`), modelled by the
outcomes of its two methods for the one context in which the repository
calls it: `getLatest n` is the result of `GetLatestTransactions(ctx, n)`
and `getById id` the result of `GetTransactionByID(ctx, id)`. -/
structure ProviderClient where
  getLatest : Int → Except String (List Transaction)
  getById : String → Except String Transaction

/-- The transaction repository: the cache plus the three provider
clients, any of which may be `nil`. -/
structure TransactionRepository where
  cache : GoCache
  stripeClient : Option ProviderClient
  vippsClient : Option ProviderClient
  zettleClient : Option ProviderClient

/-- `RefreshCache`: fetch up to 100 latest transactions from each
configured provider in turn, skipping (only) the providers that error,
then cache every fetched transaction under its `ID` with a 24-hour
expiration.  The function always returns `ok`.  `now` is the instant of
the call. -/
def RefreshCache (r : TransactionRepository) (now : Int) : GoCache × Except String Unit :=
  let allTransactions : List Transaction := []
  let allTransactions : List Transaction :=
    match r.stripeClient with
    | none => allTransactions
    | some c =>
      match c.getLatest 100 with
      | .ok stripeTransactions => allTransactions ++ stripeTransactions
      | .error _ => allTransactions
  let allTransactions : List Transaction :=
    match r.vippsClient with
    | none => allTransactions
    | some c =>
      match c.getLatest 100 with
      | .ok vippsTransactions => allTransactions ++ vippsTransactions
      | .error _ => allTransactions
  let allTransactions : List Transaction :=
    match r.zettleClient with
    | none => allTransactions
    | some c =>
      match c.getLatest 100 with
      | .ok zettleTransactions => allTransactions ++ zettleTransactions
      | .error _ => allTransactions
  (allTransactions.foldl (fun cc t => InMemoryCache.SetTransaction cc now t.id t (24 * Hour))
    r.cache,
   .ok ())

/-- Descending creation-time order used by `GetTransactions`
(`sort.Slice` with `CreatedAt.After`). -/
def createdDesc (a b : Transaction) : Prop := b.createdAt ≤ a.createdAt

instance : DecidableRel createdDesc := fun a b =>
  inferInstanceAs (Decidable (b.createdAt ≤ a.createdAt))

instance : IsTotal Transaction createdDesc :=
  ⟨fun a b => le_total b.createdAt a.createdAt⟩

instance : IsTrans Transaction createdDesc :=
  ⟨fun _ _ _ h1 h2 => le_trans h2 h1⟩

/-- The sort performed by `GetTransactions`: Go's `sort.Slice` leaves
the order of `CreatedAt` ties unspecified, so any sort by `createdDesc`
is a faithful model; insertion sort is used. -/
def sortByCreatedDesc (l : List Transaction) : List Transaction :=
  List.insertionSort createdDesc l

/-- Result of one `GetTransactions` call: the returned value, the cache
afterwards, and how many times `RefreshCache` was invoked. -/
structure GetTransactionsResult where
  result : Except String (List Transaction)
  cache : GoCache
  refreshCalls : Nat
deriving Repr

/-- `GetTransactions`: clamp the limit, serve sorted cache contents, and
only on a completely empty cache fall back to a single synchronous
`RefreshCache`, propagating its error if it fails.  `now` is the
instant of the call. -/
def GetTransactions (r : TransactionRepository) (now : Int) (limit : Int) :
    GetTransactionsResult :=
  let limit := if limit < TRANSACTION_LIMIT_MIN then TRANSACTION_LIMIT_DEFAULT else limit
  let limit := if limit > TRANSACTION_LIMIT_MAX then TRANSACTION_LIMIT_MAX else limit
  let cachedTransactions := sortByCreatedDesc (InMemoryCache.GetTransactions r.cache now "")
  if (cachedTransactions.length : Int) ≥ limit then
    ⟨.ok (cachedTransactions.take limit.toNat), r.cache, 0⟩
  else if cachedTransactions.length > 0 then
    ⟨.ok cachedTransactions, r.cache, 0⟩
  else
    match RefreshCache r now with
    | (cache', .error e) =>
      ⟨.error ("no transactions available and failed to refresh cache: " ++ e), cache', 1⟩
    | (cache', .ok _) =>
      let cachedTransactions := sortByCreatedDesc (InMemoryCache.GetTransactions cache' now "")
      if (cachedTransactions.length : Int) > limit then
        ⟨.ok (cachedTransactions.take limit.toNat), cache', 1⟩
      else
        ⟨.ok cachedTransactions, cache', 1⟩

/-- One provider attempt of `GetTransactionByID`: a `nil` client or an
erroring client falls through to `fallback`; a successful client's
transaction is cached under its `ID` with a 24-hour TTL and returned. -/
def tryProvider (client : Option ProviderClient) (now : Int) (id : String) (cache : GoCache)
    (fallback : Except String Transaction × GoCache) :
    Except String Transaction × GoCache :=
  match client with
  | none => fallback
  | some c =>
    match c.getById id with
    | .ok transaction =>
      (.ok transaction,
       InMemoryCache.SetTransaction cache now transaction.id transaction (24 * Hour))
    | .error _ => fallback

/-- `GetTransactionByID`: cache first, then Stripe, then Vipps, then
Zettle, caching the first hit; otherwise a not-found error naming the
id.  `now` is the instant of the call. -/
def GetTransactionByID (r : TransactionRepository) (now : Int) (id : String) :
    Except String Transaction × GoCache :=
  match InMemoryCache.GetTransaction r.cache now id with
  | some transaction => (.ok transaction, r.cache)
  | none =>
    tryProvider r.stripeClient now id r.cache
      (tryProvider r.vippsClient now id r.cache
        (tryProvider r.zettleClient now id r.cache
          (.error ("transaction with ID " ++ id ++ " not found"), r.cache)))

/-- `TransactionService.enrichTransactionWithProduct`
(`internal/services`): with no price service the transaction is returned
untouched; otherwise a successful product match sets the two enrichment
fields on a copy, and no match leaves the transaction unchanged. -/
def enrichTransactionWithProduct (priceService : Option (List prices.Price))
    (transaction : Transaction) : Transaction :=
  match priceService with
  | none => transaction
  | some priceList =>
    match prices.FindBestProductMatch priceList transaction.amount transaction.description with
    | some matchedProduct =>
      { transaction with
        product := some matchedProduct.product
        productPrice := some matchedProduct.price }
    | none => transaction

end repo

/-! ## Spec-side definitions

Definitions in this section follow the wording of the specification (and
of the claims under scrutiny), to be compared with the source-derived
definitions above. -/

namespace repo

/-- The transactions one provider contributes to a bulk refresh: the
result of `GetLatestTransactions(ctx, 100)` when the client is
configured and the call succeeds, and nothing otherwise. -/
def providerContribution (client : Option ProviderClient) : List Transaction :=
  match client with
  | none => []
  | some c =>
    match c.getLatest 100 with
    | .ok ts => ts
    | .error _ => []

/-- The transaction a provider lookup contributes to `GetTransactionByID`:
`none` both for a `nil` client and for a failed call, so that the next
adapter in the cascade is consulted. -/
def providerHit (client : Option ProviderClient) (id : String) : Option Transaction :=
  match client with
  | none => none
  | some c =>
    match c.getById id with
    | .ok t => some t
    | .error _ => none

/-- The not-found error produced when the id is in no cache and no
provider: it names the id. -/
def notFoundError (id : String) : String :=
  "transaction with ID " ++ id ++ " not found"

/-- The limit clamping described by the spec, as one expression: below
the minimum (1) fall back to the default (25), above the maximum (1000)
cap at 1000. -/
def clampLimit (limit : Int) : Int :=
  if limit < 1 then 25 else if limit > 1000 then 1000 else limit

end repo

namespace prices

/-- Spec wording of the word-level comparison of the fuzzy match: the
cleaned product word either participates in a containment check (only
when longer than two characters) or in one of the fixed synonym-table
entries. -/
def specSynonymTable : List (String × List String) := [
  ("1-2", ["2", "1"]),
  ("3", ["3", "three"]),
  ("4", ["4", "four"]),
  ("pers", ["people", "person"])]

/-- Spec wording of one description-word/product-word hit: containment
in either direction for cleaned product words of length `> 2`, or a
synonym-table entry. -/
def specWordHit (dWord pWord : String) : Bool :=
  let cd := cleanWord dWord
  let cp := cleanWord pWord
  (cp.length > 2 && (strings.Contains cd cp || strings.Contains cp cd)) ||
  specSynonymTable.any (fun entry => cp == entry.fst && entry.snd.any (fun w => cd == w))

/-- Number of description words that hit at least one product word (the
quantity the code actually thresholds). -/
def specDescHitCount (desc prod : String) : Nat :=
  ((strings.Fields desc).filter
    (fun dWord => (strings.Fields prod).any (fun pWord => specWordHit dWord pWord))).length

/-- Number of product words hit by at least one description word (the
quantity claimed by the spec sentence under scrutiny). -/
def specProductHitCount (desc prod : String) : Nat :=
  ((strings.Fields prod).filter
    (fun pWord => (strings.Fields desc).any (fun dWord => specWordHit dWord pWord))).length

/-- The spec's ±5%-of-amount tolerance window: the price entries whose
price differs from the amount by at most 5% of the amount. -/
def toleranceWindow (priceList : List Price) (amount : ℚ) : List Price :=
  priceList.filter (fun p => |p.price - amount| ≤ amount * (5 / 100))

end prices

namespace statushelpers

/-- Spec wording of step 1 of status normalization: a single
case-insensitive lookup in the provider's mapping table. -/
def ciLookup (s : String) (tbl : List (String × String)) : Option String :=
  (tbl.find? (fun kv => strings.EqualFold s kv.fst)).map (fun kv => kv.snd)

/-- Spec wording of the provider-table dispatch: the three known
sources, compared on the lowercased source tag, have explicit tables;
any other source has none. -/
def specProviderTable (lowerSource : String) : Option (List (String × String)) :=
  if lowerSource == "stripe" then some StripeStatusMapping
  else if lowerSource == "vipps" then some VippsStatusMapping
  else if lowerSource == "zettle" then some ZettleStatusMapping
  else none

/-- The keyword-inference priority list of the spec: category keywords
scanned in the fixed order success, pending, processing, failure,
cancellation, refund, expiry. -/
def specKeywordCategories : List (String × List String) := [
  ("succeeded", ["success", "complete", "paid", "capture"]),
  ("pending", ["pending", "waiting", "initiated"]),
  ("processing", ["processing", "authorized"]),
  ("failed", ["fail", "reject", "decline"]),
  ("cancelled", ["cancel", "void", "abandon"]),
  ("refunded", ["refund"]),
  ("expired", ["expir", "timeout"])]

/-- Spec wording of the keyword-inference fallback: the first category
in the priority list one of whose keywords occurs in the lowercased raw
status wins; otherwise `unknown`. -/
def specInferStatus (status : String) : String :=
  let lowerStatus := strings.ToLower status
  match specKeywordCategories.find?
      (fun cat => cat.snd.any (fun kw => strings.Contains lowerStatus kw)) with
  | some cat => cat.fst
  | none => "unknown"

/-- Spec wording of the whole two-step normalization: trim and
uppercase the raw status; a known provider's table decides (with
`unknown` for unmapped statuses); an unknown source falls back to
keyword inference. -/
def specNormalizeStatus (raw source : String) : String :=
  let normalized := strings.ToUpper (strings.TrimSpace raw)
  match specProviderTable (strings.ToLower source) with
  | some tbl => (ciLookup normalized tbl).getD "unknown"
  | none => specInferStatus normalized

end statushelpers

/-! ## Concrete sample data for closed witness statements -/

namespace repo

/-- A small concrete transaction for witnesses. -/
def sampleTransaction (i : String) (t : Int) : Transaction :=
  ⟨i, "ext-" ++ i, "stripe", 100, "NOK", "succeeded", t, "cust", "desc", "card", "",
    [], "card", none, none, 0, none, none⟩

/-- The instant at which the witness calls are made. -/
def sampleNow : Int := 1000

/-- A concrete populated cache (two live transactions, the newer one
second), with the 24h default expiration of the wiring. -/
def sampleCache : GoCache :=
  ⟨24 * Hour,
   [("transaction:a", ⟨.transaction (sampleTransaction "a" 5), 24 * Hour⟩),
    ("transaction:b", ⟨.transaction (sampleTransaction "b" 9), 24 * Hour⟩)]⟩

/-- A repository with a populated cache and no providers. -/
def sampleRepoPopulated : TransactionRepository :=
  ⟨sampleCache, none, none, none⟩

/-- A stripe client whose bulk fetch succeeds and whose by-id lookup
fails. -/
def sampleStripeClient : ProviderClient :=
  ⟨fun _ => .ok [sampleTransaction "s1" 3, sampleTransaction "s2" 8],
   fun _ => .error "not found in stripe"⟩

/-- A vipps client whose bulk fetch fails and whose by-id lookup
succeeds. -/
def sampleVippsClient : ProviderClient :=
  ⟨fun _ => .error "vipps down", fun _ => .ok (sampleTransaction "v1" 1)⟩

/-- A repository with an empty cache, a working stripe client and a
failing vipps client. -/
def sampleRepoEmpty : TransactionRepository :=
  ⟨⟨24 * Hour, []⟩, some sampleStripeClient, some sampleVippsClient, none⟩

end repo

/-! ## Theorems: the price list loader -/

namespace prices

/-- **C10.** Loading the price list fails for any input of fewer than
two records: in particular a file holding only the (well-formed) header
row and no data rows aborts the load, and `NewPriceService` — hence
startup — propagates that failure. -/
theorem loadPricesFromCSV_fewer_than_two_records (records : List (List String))
    (h : records.length < 2) :
    loadPricesFromCSV records =
      .error "CSV file must contain at least header and one data row" ∧
    NewPriceService records =
      .error "failed to load prices from CSV: CSV file must contain at least header and one data row" := by
  have hload : loadPricesFromCSV records =
      .error "CSV file must contain at least header and one data row" := by
    unfold loadPricesFromCSV
    rw [if_pos h]
  refine ⟨hload, ?_⟩
  unfold NewPriceService
  rw [hload]
  rfl

/-- Witness for C10: the file consisting of exactly the valid 3-column
header row and zero data rows is rejected. -/
theorem loadPricesFromCSV_fewer_than_two_records_witness :
    ([["Product", "Price", "Currency"]] : List (List String)).length < 2 ∧
    (["Product", "Price", "Currency"] : List String).length = 3 ∧
    loadPricesFromCSV [["Product", "Price", "Currency"]] =
      .error "CSV file must contain at least header and one data row" :=
  ⟨by decide, by decide,
    (loadPricesFromCSV_fewer_than_two_records [["Product", "Price", "Currency"]]
      (by decide)).1⟩

/-! ## Theorems: price matching -/

/-- **C7.** For every price list, amount and description (the empty one
included): when exactly one price entry's price equals the amount
exactly, `FindBestProductMatch` returns that entry (strategy 1). -/
theorem findBestProductMatch_unique_exact_price (priceList : List Price) (amount : ℚ)
    (description : String) (p : Price)
    (h : priceList.filter (fun q => q.price == amount) = [p]) :
    FindBestProductMatch priceList amount description = some p := by
  unfold FindBestProductMatch GetProductsByPrice
  rw [h]
  simp

/-- Witness for C7: a list whose only 650-priced entry is the cabin,
looked up with amount 650 and the empty description. -/
theorem findBestProductMatch_unique_exact_price_witness :
    ([⟨"Cabin", 650, "NOK"⟩, ⟨"Bed linen", 75, "NOK"⟩] : List Price).filter
        (fun q => q.price == 650) = [⟨"Cabin", 650, "NOK"⟩] ∧
    FindBestProductMatch [⟨"Cabin", 650, "NOK"⟩, ⟨"Bed linen", 75, "NOK"⟩] 650 "" =
      some ⟨"Cabin", 650, "NOK"⟩ :=
  ⟨by decide,
    findBestProductMatch_unique_exact_price _ 650 "" ⟨"Cabin", 650, "NOK"⟩ (by decide)⟩

end prices

/-! ## Theorems: the transaction repository -/

namespace repo

/-- `RefreshCache` never reports an error and upserts exactly the
concatenation of the per-provider contributions, each keyed by the
transaction id with a 24-hour TTL. -/
theorem refreshCache_eq (r : TransactionRepository) (now : Int) :
    RefreshCache r now =
      ((providerContribution r.stripeClient ++ providerContribution r.vippsClient ++
          providerContribution r.zettleClient).foldl
        (fun cc t => InMemoryCache.SetTransaction cc now t.id t (24 * Hour)) r.cache,
       .ok ()) := by
  unfold RefreshCache providerContribution
  rcases r.stripeClient with _ | c1 <;> rcases r.vippsClient with _ | c2 <;>
    rcases r.zettleClient with _ | c3
  all_goals try rcases h1 : c1.getLatest 100 with e1 | l1
  all_goals try rcases h2 : c2.getLatest 100 with e2 | l2
  all_goals try rcases h3 : c3.getLatest 100 with e3 | l3
  all_goals simp [*]

/-- **C2.** For every combination of per-provider outcomes:
`RefreshCache` never surfaces a per-provider failure as an error (it
always returns `ok`), and the cache receives exactly the transactions of
every successfully fetched provider (each asked for its 100 latest),
upserted with a 24h TTL — a failing provider contributes the empty list
without affecting the other providers' contributions. -/
theorem refreshCache_per_provider_independent (r : TransactionRepository) (now : Int) :
    (RefreshCache r now).2 = .ok () ∧
    (RefreshCache r now).1 =
      (providerContribution r.stripeClient ++ providerContribution r.vippsClient ++
          providerContribution r.zettleClient).foldl
        (fun cc t => InMemoryCache.SetTransaction cc now t.id t (24 * Hour)) r.cache := by
  rw [refreshCache_eq r now]
  exact ⟨rfl, rfl⟩

/-- **C9.** The enrichment step is a pure copy: the returned transaction
agrees with the input on every field other than the two enrichment
fields; when the matcher finds a product those two fields are set on the
copy; when it finds none (or no price service is configured) the
transaction is returned entirely unchanged, and no error is possible. -/
theorem enrichTransactionWithProduct_frame (ps : Option (List prices.Price))
    (t : Transaction) :
    ((enrichTransactionWithProduct ps t).id = t.id ∧
     (enrichTransactionWithProduct ps t).externalId = t.externalId ∧
     (enrichTransactionWithProduct ps t).source = t.source ∧
     (enrichTransactionWithProduct ps t).amount = t.amount ∧
     (enrichTransactionWithProduct ps t).currency = t.currency ∧
     (enrichTransactionWithProduct ps t).status = t.status ∧
     (enrichTransactionWithProduct ps t).createdAt = t.createdAt ∧
     (enrichTransactionWithProduct ps t).customerId = t.customerId ∧
     (enrichTransactionWithProduct ps t).description = t.description ∧
     (enrichTransactionWithProduct ps t).paymentMethod = t.paymentMethod ∧
     (enrichTransactionWithProduct ps t).receiptUrl = t.receiptUrl ∧
     (enrichTransactionWithProduct ps t).metadata = t.metadata ∧
     (enrichTransactionWithProduct ps t).transactionType = t.transactionType ∧
     (enrichTransactionWithProduct ps t).dataBlob = t.dataBlob ∧
     (enrichTransactionWithProduct ps t).transferDataBlob = t.transferDataBlob ∧
     (enrichTransactionWithProduct ps t).cachedAt = t.cachedAt) ∧
    (∀ priceList, ps = some priceList →
      (∀ m, prices.FindBestProductMatch priceList t.amount t.description = some m →
        (enrichTransactionWithProduct ps t).product = some m.product ∧
        (enrichTransactionWithProduct ps t).productPrice = some m.price) ∧
      (prices.FindBestProductMatch priceList t.amount t.description = none →
        enrichTransactionWithProduct ps t = t)) ∧
    (ps = none → enrichTransactionWithProduct ps t = t) := by
  rcases ps with _ | priceList
  · simp [enrichTransactionWithProduct]
  · rcases hm : prices.FindBestProductMatch priceList t.amount t.description with _ | m <;>
      simp [enrichTransactionWithProduct, hm]

/-- The sequential two-step limit clamping at the top of
`GetTransactions` equals the spec's one-expression clamp. -/
theorem clampLimit_eq (limit : Int) :
    (if (if limit < TRANSACTION_LIMIT_MIN then TRANSACTION_LIMIT_DEFAULT else limit) >
        TRANSACTION_LIMIT_MAX then TRANSACTION_LIMIT_MAX
     else if limit < TRANSACTION_LIMIT_MIN then TRANSACTION_LIMIT_DEFAULT else limit) =
    clampLimit limit := by
  unfold clampLimit TRANSACTION_LIMIT_MIN TRANSACTION_LIMIT_DEFAULT TRANSACTION_LIMIT_MAX
  split_ifs <;> omega

/-- The clamped limit is always at least 1. -/
theorem clampLimit_pos (limit : Int) : 1 ≤ clampLimit limit := by
  unfold clampLimit
  split_ifs <;> omega

/-- The sort used by `GetTransactions` permutes the cache contents. -/
theorem perm_sortByCreatedDesc (l : List Transaction) : (sortByCreatedDesc l).Perm l :=
  List.perm_insertionSort createdDesc l

/-- The sort used by `GetTransactions` sorts by creation time descending. -/
theorem sorted_sortByCreatedDesc (l : List Transaction) :
    List.Sorted createdDesc (sortByCreatedDesc l) :=
  List.sorted_insertionSort createdDesc l

/-- **C3.** When the cache holds at least one live (non-expired)
transaction, `GetTransactions` never errors and never refreshes: the
limit is clamped (below 1 becomes the default 25, above 1000 becomes
1000), the live cached transactions are sorted by creation time
descending, and the first clamped-limit entries are returned when the
cache holds at least that many, all of them otherwise. -/
theorem getTransactions_nonempty_cache_clamp_sort_slice (r : TransactionRepository)
    (now : Int) (limit : Int)
    (h : InMemoryCache.GetTransactions r.cache now "" ≠ []) :
    ∃ sorted : List Transaction,
      sorted.Perm (InMemoryCache.GetTransactions r.cache now "") ∧
      List.Sorted createdDesc sorted ∧
      (GetTransactions r now limit).result = .ok (sorted.take (clampLimit limit).toNat) ∧
      (((InMemoryCache.GetTransactions r.cache now "").length : Int) ≥ clampLimit limit →
        (sorted.take (clampLimit limit).toNat).length = (clampLimit limit).toNat) ∧
      (((InMemoryCache.GetTransactions r.cache now "").length : Int) < clampLimit limit →
        (GetTransactions r now limit).result = .ok sorted) ∧
      (GetTransactions r now limit).refreshCalls = 0 ∧
      (GetTransactions r now limit).cache = r.cache := by
  have hlen : (sortByCreatedDesc (InMemoryCache.GetTransactions r.cache now "")).length =
      (InMemoryCache.GetTransactions r.cache now "").length :=
    (perm_sortByCreatedDesc _).length_eq
  have hpos : 0 < (InMemoryCache.GetTransactions r.cache now "").length := List.length_pos.mpr h
  have hL := clampLimit_pos limit
  by_cases hge : ((InMemoryCache.GetTransactions r.cache now "").length : Int) ≥ clampLimit limit
  · have hG : GetTransactions r now limit =
        ⟨.ok ((sortByCreatedDesc (InMemoryCache.GetTransactions r.cache now "")).take (clampLimit limit).toNat),
         r.cache, 0⟩ := by
      unfold GetTransactions
      simp only [clampLimit_eq]
      rw [if_pos]
      rw [hlen]
      exact hge
    refine ⟨sortByCreatedDesc (InMemoryCache.GetTransactions r.cache now ""), perm_sortByCreatedDesc _,
      sorted_sortByCreatedDesc _, ?_, ?_, ?_, ?_, ?_⟩
    · rw [hG]
    · intro _
      rw [List.length_take, hlen]
      omega
    · intro hlt
      omega
    · rw [hG]
    · rw [hG]
  · have hle : (sortByCreatedDesc (InMemoryCache.GetTransactions r.cache now "")).length ≤
        (clampLimit limit).toNat := by
      rw [hlen]
      omega
    have htake : (sortByCreatedDesc (InMemoryCache.GetTransactions r.cache now "")).take
        (clampLimit limit).toNat = sortByCreatedDesc (InMemoryCache.GetTransactions r.cache now "") :=
      List.take_of_length_le hle
    have hG : GetTransactions r now limit =
        ⟨.ok (sortByCreatedDesc (InMemoryCache.GetTransactions r.cache now "")), r.cache, 0⟩ := by
      unfold GetTransactions
      simp only [clampLimit_eq]
      rw [if_neg, if_pos]
      · rw [hlen]
        exact hpos
      · rw [hlen]
        exact hge
    refine ⟨sortByCreatedDesc (InMemoryCache.GetTransactions r.cache now ""), perm_sortByCreatedDesc _,
      sorted_sortByCreatedDesc _, ?_, ?_, ?_, ?_, ?_⟩
    · rw [hG, htake]
    · intro hge2
      omega
    · intro _
      rw [hG]
    · rw [hG]
    · rw [hG]

/-- Witness for C3: the populated two-transaction cache, queried with
the out-of-range limit 0 (clamped to the default 25). -/
theorem getTransactions_nonempty_cache_clamp_sort_slice_witness :
    InMemoryCache.GetTransactions sampleRepoPopulated.cache sampleNow "" ≠ [] ∧
    (GetTransactions sampleRepoPopulated sampleNow 0).refreshCalls = 0 ∧
    (GetTransactions sampleRepoPopulated sampleNow 0).cache = sampleRepoPopulated.cache := by
  obtain ⟨sorted, hperm, hsort, hres, hc1, hc2, hrc, hcache⟩ :=
    getTransactions_nonempty_cache_clamp_sort_slice sampleRepoPopulated sampleNow 0 (by decide)
  exact ⟨by decide, hrc, hcache⟩

/-- **C1.** On a cache holding zero live transactions `GetTransactions`
performs exactly one synchronous refresh; if that refresh reports
success the clamped/sorted/sliced refreshed data is returned, and if it
reports failure a fetch-failure error is returned to the caller. -/
theorem getTransactions_empty_cache_one_refresh (r : TransactionRepository) (now : Int)
    (limit : Int) (h : InMemoryCache.GetTransactions r.cache now "" = []) :
    (GetTransactions r now limit).refreshCalls = 1 ∧
    (GetTransactions r now limit).cache = (RefreshCache r now).1 ∧
    ((RefreshCache r now).2 = .ok () →
      ∃ sorted : List Transaction,
        sorted.Perm (InMemoryCache.GetTransactions (RefreshCache r now).1 now "") ∧
        List.Sorted createdDesc sorted ∧
        (GetTransactions r now limit).result = .ok (sorted.take (clampLimit limit).toNat)) ∧
    (∀ e, (RefreshCache r now).2 = .error e →
      (GetTransactions r now limit).result =
        .error ("no transactions available and failed to refresh cache: " ++ e)) := by
  have hrc := refreshCache_eq r now
  have hL := clampLimit_pos limit
  have hG : GetTransactions r now limit =
      ⟨.ok ((sortByCreatedDesc (InMemoryCache.GetTransactions (RefreshCache r now).1 now "")).take
          (clampLimit limit).toNat),
       (RefreshCache r now).1, 1⟩ := by
    unfold GetTransactions
    simp only [clampLimit_eq]
    rw [h]
    rw [show sortByCreatedDesc ([] : List Transaction) = [] from rfl]
    simp only [List.length_nil, Int.natCast_zero]
    rw [if_neg (by omega)]
    rw [if_neg (by omega)]
    rw [hrc]
    by_cases hgt :
      (((sortByCreatedDesc (InMemoryCache.GetTransactions (RefreshCache r now).1 now "")).length : Int) >
        clampLimit limit)
    · rw [hrc] at hgt
      simp only [hgt, if_true, hrc]
    · rw [hrc] at hgt
      simp only [hgt, if_false, hrc]
      have hle : (sortByCreatedDesc (InMemoryCache.GetTransactions (RefreshCache r now).1 now "")).length ≤
          (clampLimit limit).toNat := by
        rw [hrc]
        omega
      rw [hrc] at hle
      rw [List.take_of_length_le hle]
  refine ⟨by rw [hG], by rw [hG], ?_, ?_⟩
  · intro _
    exact ⟨sortByCreatedDesc (InMemoryCache.GetTransactions (RefreshCache r now).1 now ""),
      perm_sortByCreatedDesc _, sorted_sortByCreatedDesc _, by rw [hG]⟩
  · intro e he
    rw [hrc] at he
    exact absurd he (by simp)

/-- Witness for C1: the empty-cache repository performs exactly one
refresh when queried. -/
theorem getTransactions_empty_cache_one_refresh_witness :
    InMemoryCache.GetTransactions sampleRepoEmpty.cache sampleNow "" = [] ∧
    (GetTransactions sampleRepoEmpty sampleNow 10).refreshCalls = 1 ∧
    (GetTransactions sampleRepoEmpty sampleNow 10).cache =
      (RefreshCache sampleRepoEmpty sampleNow).1 := by
  obtain ⟨h1, h2, _, _⟩ :=
    getTransactions_empty_cache_one_refresh sampleRepoEmpty sampleNow 10 (by decide)
  exact ⟨by decide, h1, h2⟩

/-- A provider attempt with a hit returns the fetched transaction and
caches it under its id with a 24h TTL, ignoring the fallback. -/
theorem tryProvider_hit (client : Option ProviderClient) (now : Int) (id : String)
    (cache : GoCache) (fb : Except String Transaction × GoCache) (t : Transaction)
    (h : providerHit client id = some t) :
    tryProvider client now id cache fb =
      (.ok t, InMemoryCache.SetTransaction cache now t.id t (24 * Hour)) := by
  rcases client with _ | c
  · simp [providerHit] at h
  · rcases hc : c.getById id with e | u
    · simp [providerHit, hc] at h
    · simp [providerHit, hc] at h
      subst h
      simp [tryProvider, hc]

/-- A provider attempt with no hit (nil client or failed call) falls
through to the fallback untouched. -/
theorem tryProvider_miss (client : Option ProviderClient) (now : Int) (id : String)
    (cache : GoCache) (fb : Except String Transaction × GoCache)
    (h : providerHit client id = none) :
    tryProvider client now id cache fb = fb := by
  rcases client with _ | c
  · simp [tryProvider]
  · rcases hc : c.getById id with e | u
    · simp [tryProvider, hc]
    · simp [providerHit, hc] at h

/-- **C4.** `GetTransactionByID` returns the cached transaction
immediately on a cache hit; on a miss it consults stripe, then vipps,
then zettle, in that fixed order, stopping at the first adapter that
succeeds — per-adapter failures (and unconfigured adapters) fall through
to the next one — caching a successful result under its id with a 24h
TTL before returning it; when nothing succeeds it fails with a not-found
error naming the id and leaves the cache untouched. -/
theorem getTransactionByID_cascade (r : TransactionRepository) (now : Int)
    (id : String) :
    (∀ t, InMemoryCache.GetTransaction r.cache now id = some t → GetTransactionByID r now id = (.ok t, r.cache)) ∧
    (InMemoryCache.GetTransaction r.cache now id = none →
      (∀ t, providerHit r.stripeClient id = some t →
        GetTransactionByID r now id = (.ok t, InMemoryCache.SetTransaction r.cache now t.id t (24 * Hour))) ∧
      (providerHit r.stripeClient id = none →
        (∀ t, providerHit r.vippsClient id = some t →
          GetTransactionByID r now id = (.ok t, InMemoryCache.SetTransaction r.cache now t.id t (24 * Hour))) ∧
        (providerHit r.vippsClient id = none →
          (∀ t, providerHit r.zettleClient id = some t →
            GetTransactionByID r now id = (.ok t, InMemoryCache.SetTransaction r.cache now t.id t (24 * Hour))) ∧
          (providerHit r.zettleClient id = none →
            GetTransactionByID r now id = (.error (notFoundError id), r.cache))))) := by
  constructor
  · intro t ht
    unfold GetTransactionByID
    simp only [ht]
  · intro hnone
    unfold GetTransactionByID
    simp only [hnone]
    refine ⟨fun t ht => ?_, fun hs => ?_⟩
    · rw [tryProvider_hit _ _ _ _ _ _ ht]
    · rw [tryProvider_miss _ _ _ _ _ hs]
      refine ⟨fun t ht => ?_, fun hv => ?_⟩
      · rw [tryProvider_hit _ _ _ _ _ _ ht]
      · rw [tryProvider_miss _ _ _ _ _ hv]
        refine ⟨fun t ht => ?_, fun hz => ?_⟩
        · rw [tryProvider_hit _ _ _ _ _ _ ht]
        · rw [tryProvider_miss _ _ _ _ _ hz]
          rfl

/-- Witness for C4: on the empty-cache repository whose stripe lookup
fails and whose vipps lookup succeeds, the vipps transaction is returned
and cached. -/
theorem getTransactionByID_cascade_witness :
    InMemoryCache.GetTransaction sampleRepoEmpty.cache sampleNow "x" = none ∧
    providerHit sampleRepoEmpty.stripeClient "x" = none ∧
    providerHit sampleRepoEmpty.vippsClient "x" = some (sampleTransaction "v1" 1) ∧
    GetTransactionByID sampleRepoEmpty sampleNow "x" =
      (.ok (sampleTransaction "v1" 1),
       InMemoryCache.SetTransaction sampleRepoEmpty.cache sampleNow
         (sampleTransaction "v1" 1).id (sampleTransaction "v1" 1) (24 * Hour)) := by
  refine ⟨by decide, by decide, by decide, ?_⟩
  exact (((getTransactionByID_cascade sampleRepoEmpty sampleNow "x").2 (by decide)).2
    (by decide)).1 (sampleTransaction "v1" 1) (by decide)

end repo

/-! ## Theorems: the fuzzy match (claim C5) -/

namespace prices

/-- The spec-worded word-pair hit coincides with the code's inner-loop
comparison on cleaned words. -/
theorem specWordHit_eq (d p : String) :
    specWordHit d p = wordPairHit (cleanWord d) (cleanWord p) := by
  unfold specWordHit wordPairHit specSynonymTable
  simp only [List.any_cons, List.any_nil, Bool.or_false, Bool.or_assoc]

/-- The integer threshold test of the embedding is exactly the
`count ≥ words · 2/5` comparison of the specification. -/
theorem fuzzyMatch_threshold_iff (m n : ℕ) :
    5 * m ≥ 2 * n ↔ ((m : ℚ) ≥ (n : ℚ) * (2 / 5)) := by
  rw [ge_iff_le, ge_iff_le, show ((n : ℚ) * (2 / 5)) = (2 * n) / 5 by ring,
    div_le_iff₀ (by norm_num : (0 : ℚ) < 5),
    show ((m : ℚ) * 5) = ((5 * m : ℕ) : ℚ) by push_cast; ring,
    show ((2 * (n : ℚ))) = ((2 * n : ℕ) : ℚ) by push_cast; ring]
  exact Nat.cast_le.symm

/-- The count the code thresholds (description words with at least one
successful product-word comparison) is `specDescHitCount`. -/
theorem countP_eq_specDescHitCount (desc prod : String) :
    ((strings.Fields desc).countP
      (fun dWord => (strings.Fields prod).any
        (fun pWord => wordPairHit (cleanWord dWord) (cleanWord pWord)))) =
    specDescHitCount desc prod := by
  unfold specDescHitCount
  rw [List.countP_eq_length_filter]
  congr 1
  apply List.filter_congr
  intro dWord _
  have hfun : (fun pWord => wordPairHit (cleanWord dWord) (cleanWord pWord)) =
      (fun pWord => specWordHit dWord pWord) :=
    funext fun pWord => (specWordHit_eq dWord pWord).symm
  rw [hfun]

/-- **C5 (amended).** For description and product name that are
non-empty after lowercasing and trimming, not equal, and with no
containment in either direction, `fuzzyMatch` returns true iff the
product tokenizes to at least one word and the number of *description*
words counted as hit — a description word is hit when, for some product
word, the cleaned pair passes the containment check (cleaned product
words of length ≤ 2 excluded) or a fixed synonym-table entry — is at
least 40% of the product's word count.  (The original claim counted hit
*product* words; the code counts hit description words, see the
counterexample.) -/
theorem fuzzyMatch_counts_description_words (description productName : String)
    (hdesc : strings.ToLower (strings.TrimSpace description) ≠ "")
    (hprod : strings.ToLower (strings.TrimSpace productName) ≠ "")
    (hne : strings.ToLower (strings.TrimSpace description) ≠
      strings.ToLower (strings.TrimSpace productName))
    (hsub1 : strings.Contains (strings.ToLower (strings.TrimSpace description))
      (strings.ToLower (strings.TrimSpace productName)) = false)
    (hsub2 : strings.Contains (strings.ToLower (strings.TrimSpace productName))
      (strings.ToLower (strings.TrimSpace description)) = false) :
    fuzzyMatch description productName = true ↔
      (strings.Fields (strings.ToLower (strings.TrimSpace productName)) ≠ [] ∧
       (specDescHitCount (strings.ToLower (strings.TrimSpace description))
           (strings.ToLower (strings.TrimSpace productName)) : ℚ) ≥
         ((strings.Fields (strings.ToLower (strings.TrimSpace productName))).length : ℚ) *
           (2 / 5)) := by
  unfold fuzzyMatch
  set desc := strings.ToLower (strings.TrimSpace description) with hdesc_def
  set prod := strings.ToLower (strings.TrimSpace productName) with hprod_def
  rw [if_neg (by simp [hdesc, hprod])]
  rw [if_neg (by simp [hne])]
  rw [if_neg (by simp [hsub1, hsub2])]
  by_cases hfp : (strings.Fields prod).isEmpty
  · rw [if_pos hfp]
    have : strings.Fields prod = [] := List.isEmpty_iff.mp hfp
    simp [this]
  · rw [if_neg hfp]
    have hne' : strings.Fields prod ≠ [] := fun hcon => hfp (by simp [hcon])
    rw [countP_eq_specDescHitCount]
    simp only [decide_eq_true_eq]
    rw [fuzzyMatch_threshold_iff]
    exact ⟨fun hge => ⟨hne', hge⟩, fun h => h.2⟩

/-- Counterexample to C5 as stated: on `"alpha alpha"` against
`"alphax bravo charlie delta echo"` all preconditions of the claim hold,
the code's `fuzzyMatch` answers `true`, yet only 1 of the 5 product
words is hit and `1 ≥ 5 · 0.4` is false — so the claimed
product-word-count criterion predicts `false`. -/
theorem fuzzyMatch_product_word_count_counterexample :
    strings.ToLower (strings.TrimSpace "alpha alpha") ≠ "" ∧
    strings.ToLower (strings.TrimSpace "alphax bravo charlie delta echo") ≠ "" ∧
    strings.ToLower (strings.TrimSpace "alpha alpha") ≠
      strings.ToLower (strings.TrimSpace "alphax bravo charlie delta echo") ∧
    strings.Contains (strings.ToLower (strings.TrimSpace "alpha alpha"))
      (strings.ToLower (strings.TrimSpace "alphax bravo charlie delta echo")) = false ∧
    strings.Contains (strings.ToLower (strings.TrimSpace "alphax bravo charlie delta echo"))
      (strings.ToLower (strings.TrimSpace "alpha alpha")) = false ∧
    fuzzyMatch "alpha alpha" "alphax bravo charlie delta echo" = true ∧
    specProductHitCount "alpha alpha" "alphax bravo charlie delta echo" = 1 ∧
    (strings.Fields "alphax bravo charlie delta echo").length = 5 ∧
    ¬ ((1 : ℚ) ≥ (5 : ℚ) * (2 / 5)) := by
  refine ⟨by decide, by decide, by decide, by decide, by decide, by decide, by decide,
    by decide, by norm_num⟩

/-- Witness for the amended C5, at the real-world pair
(`"tent for 3"`, `"Caravan/motorhome/tent 3 pers"`). -/
theorem fuzzyMatch_counts_description_words_witness :
    (strings.ToLower (strings.TrimSpace "tent for 3") ≠ "" ∧
     strings.ToLower (strings.TrimSpace "Caravan/motorhome/tent 3 pers") ≠ "" ∧
     strings.ToLower (strings.TrimSpace "tent for 3") ≠
       strings.ToLower (strings.TrimSpace "Caravan/motorhome/tent 3 pers") ∧
     strings.Contains (strings.ToLower (strings.TrimSpace "tent for 3"))
       (strings.ToLower (strings.TrimSpace "Caravan/motorhome/tent 3 pers")) = false ∧
     strings.Contains (strings.ToLower (strings.TrimSpace "Caravan/motorhome/tent 3 pers"))
       (strings.ToLower (strings.TrimSpace "tent for 3")) = false) ∧
    (fuzzyMatch "tent for 3" "Caravan/motorhome/tent 3 pers" = true ↔
      (strings.Fields (strings.ToLower (strings.TrimSpace "Caravan/motorhome/tent 3 pers")) ≠ [] ∧
       (specDescHitCount (strings.ToLower (strings.TrimSpace "tent for 3"))
           (strings.ToLower (strings.TrimSpace "Caravan/motorhome/tent 3 pers")) : ℚ) ≥
         ((strings.Fields
             (strings.ToLower (strings.TrimSpace "Caravan/motorhome/tent 3 pers"))).length : ℚ) *
           (2 / 5))) :=
  ⟨⟨by decide, by decide, by decide, by decide, by decide⟩,
   fuzzyMatch_counts_description_words "tent for 3" "Caravan/motorhome/tent 3 pers"
     (by decide) (by decide) (by decide) (by decide) (by decide)⟩

end prices

/-! ## Theorems: the tolerance match (claim C6) -/

namespace prices

/-- Invariant of the closest-price loop started at a current best `b`:
it returns the first element of `b :: l` (in encounter order) attaining
the minimum absolute difference. -/
theorem closestLoop_some_spec (amount : ℚ) (l : List Price) :
    ∀ b : Price,
      ∃ best,
        closestLoop amount l (some b, |amount - b.price|) =
          (some best, |amount - best.price|) ∧
        |amount - best.price| ≤ |amount - b.price| ∧
        (∀ q ∈ l, |amount - best.price| ≤ |amount - q.price|) ∧
        (best = b ∨ ∃ l1 l2, l = l1 ++ best :: l2 ∧
          |amount - best.price| < |amount - b.price| ∧
          ∀ q ∈ l1, |amount - best.price| < |amount - q.price|) := by
  induction l with
  | nil =>
    intro b
    exact ⟨b, rfl, le_refl _, by simp, Or.inl rfl⟩
  | cons p rest ih =>
    intro b
    by_cases hlt : |amount - p.price| < |amount - b.price|
    · obtain ⟨best, heq, hle, hall, hpos⟩ := ih p
      refine ⟨best, ?_, hle.trans hlt.le, ?_, ?_⟩
      · simp only [closestLoop]
        rw [if_pos hlt]
        exact heq
      · intro q hq
        rcases List.mem_cons.mp hq with rfl | hq'
        · exact hle
        · exact hall q hq'
      · right
        rcases hpos with rfl | ⟨l1, l2, hsplit, hltb, hstrict⟩
        · exact ⟨[], rest, rfl, hlt, fun q hq => absurd hq (List.not_mem_nil q)⟩
        · refine ⟨p :: l1, l2, by rw [hsplit, List.cons_append], hltb.trans hlt, ?_⟩
          intro q hq
          rcases List.mem_cons.mp hq with rfl | hq'
          · exact hltb
          · exact hstrict q hq'
    · obtain ⟨best, heq, hle, hall, hpos⟩ := ih b
      have hble : |amount - b.price| ≤ |amount - p.price| := not_lt.mp hlt
      refine ⟨best, ?_, hle, ?_, ?_⟩
      · simp only [closestLoop]
        rw [if_neg hlt]
        exact heq
      · intro q hq
        rcases List.mem_cons.mp hq with rfl | hq'
        · exact hle.trans hble
        · exact hall q hq'
      · rcases hpos with rfl | ⟨l1, l2, hsplit, hltb, hstrict⟩
        · exact Or.inl rfl
        · right
          refine ⟨p :: l1, l2, by rw [hsplit, List.cons_append], hltb, ?_⟩
          intro q hq
          rcases List.mem_cons.mp hq with rfl | hq'
          · exact lt_of_lt_of_le hltb hble
          · exact hstrict q hq'

/-- The closest-price loop, started from an initial `minDiff` above
every difference, returns the first element attaining the minimum
absolute difference. -/
theorem closestLoop_none_spec (amount : ℚ) (l : List Price) (M : ℚ)
    (hM : ∀ q ∈ l, |amount - q.price| < M) (hne : l ≠ []) :
    ∃ best l1 l2,
      (closestLoop amount l (none, M)).1 = some best ∧
      l = l1 ++ best :: l2 ∧
      (∀ q ∈ l, |amount - best.price| ≤ |amount - q.price|) ∧
      (∀ q ∈ l1, |amount - best.price| < |amount - q.price|) := by
  rcases l with _ | ⟨p, rest⟩
  · exact absurd rfl hne
  have hp : |amount - p.price| < M := hM p (by simp)
  have hstep : closestLoop amount (p :: rest) (none, M) =
      closestLoop amount rest (some p, |amount - p.price|) := by
    simp only [closestLoop]
    rw [if_pos hp]
  obtain ⟨best, heq, hle, hall, hpos⟩ := closestLoop_some_spec amount rest p
  have hres : (closestLoop amount (p :: rest) (none, M)).1 = some best := by
    rw [hstep, heq]
  rcases hpos with rfl | ⟨l1, l2, hsplit, hltb, hstrict⟩
  · refine ⟨best, [], rest, hres, rfl, ?_, fun q hq => absurd hq (List.not_mem_nil q)⟩
    intro q hq
    rcases List.mem_cons.mp hq with rfl | hq'
    · exact le_refl _
    · exact hall q hq'
  · refine ⟨best, p :: l1, l2, hres, by rw [hsplit, List.cons_append], ?_, ?_⟩
    · intro q hq
      rcases List.mem_cons.mp hq with rfl | hq'
      · exact hle
      · exact hall q hq'
    · intro q hq
      rcases List.mem_cons.mp hq with rfl | hq'
      · exact hltb
      · exact hstrict q hq'

end prices

namespace prices

/-- The range filter of strategy 4 computes exactly the spec's
tolerance window. -/
theorem window_filter_eq (priceList : List Price) (amount : ℚ) :
    priceList.filter (fun p => amount - amount * (5 / 100) ≤ p.price &&
      p.price ≤ amount + amount * (5 / 100)) = toleranceWindow priceList amount := by
  unfold toleranceWindow
  apply List.filter_congr
  intro p _
  rw [← Bool.decide_and, decide_eq_decide, abs_le]
  constructor
  · rintro ⟨ha, hb⟩
    constructor <;> linarith
  · rintro ⟨ha, hb⟩
    constructor <;> linarith

/-- **C6.** When the first three strategies fail — the exact-price set
does not have exactly one element, it is not an ambiguous set paired
with a non-empty description, and no price entry fuzzy-matches the
description — `FindBestProductMatch` performs the tolerance match: among
the entries within ±5% of the amount it returns the first one attaining
the smallest absolute price difference (ties broken by encounter
order), and it returns `none`, not an error, when the window is
empty. -/
theorem findBestProductMatch_tolerance_window (priceList : List Price) (amount : ℚ)
    (description : String)
    (h1 : (priceList.filter (fun p => p.price == amount)).length ≠ 1)
    (h2 : (priceList.filter (fun p => p.price == amount)).length ≤ 1 ∨ description = "")
    (h3 : ∀ p ∈ priceList, fuzzyMatch description p.product = false) :
    (toleranceWindow priceList amount = [] →
      FindBestProductMatch priceList amount description = none) ∧
    (toleranceWindow priceList amount ≠ [] →
      ∃ best l1 l2,
        FindBestProductMatch priceList amount description = some best ∧
        toleranceWindow priceList amount = l1 ++ best :: l2 ∧
        (∀ q ∈ toleranceWindow priceList amount,
          |best.price - amount| ≤ |q.price - amount|) ∧
        (∀ q ∈ l1, |best.price - amount| < |q.price - amount|)) := by
  have hfind : ∀ l : List Price, (∀ p ∈ l, p ∈ priceList) →
      l.find? (fun p => fuzzyMatch description p.product) = none := by
    intro l hsub
    rw [List.find?_eq_none]
    intro x hx
    simp [h3 x (hsub x hx)]
  have hEQ : FindBestProductMatch priceList amount description =
      (match GetProductsByPriceRange priceList (amount - amount * (5 / 100))
          (amount + amount * (5 / 100)) with
       | .ok rangeProducts =>
         if rangeProducts.length > 0 then
           (closestLoop amount rangeProducts (none, amount * (5 / 100) + 1)).1
         else none
       | .error _ => none) := by
    have htail : ∀ rangeProducts : List Price, (∀ p ∈ rangeProducts, p ∈ priceList) →
        (if rangeProducts.length > 0 then
          (match (if description ≠ "" then
              rangeProducts.find? (fun p => fuzzyMatch description p.product)
            else none) with
           | some p => some p
           | none => (closestLoop amount rangeProducts (none, amount * (5 / 100) + 1)).1)
         else none) =
        (if rangeProducts.length > 0 then
          (closestLoop amount rangeProducts (none, amount * (5 / 100) + 1)).1
         else none) := by
      intro rangeProducts hsub
      rw [hfind rangeProducts hsub, ite_self]
    by_cases hF0 : (priceList.filter (fun p => p.price == amount)).isEmpty
    · have hP : GetProductsByPrice priceList amount =
          .error "no products found with price" := by
        unfold GetProductsByPrice
        rw [if_pos hF0]
      unfold FindBestProductMatch
      simp only [hP, hfind priceList (fun _ hp => hp), ite_self]
      rcases hR : GetProductsByPriceRange priceList (amount - amount * (5 / 100))
          (amount + amount * (5 / 100)) with e | rangeProducts
      · rfl
      · have hsub : ∀ p ∈ rangeProducts, p ∈ priceList := by
          unfold GetProductsByPriceRange at hR
          by_cases hmm : amount - amount * (5 / 100) > amount + amount * (5 / 100)
          · rw [if_pos hmm] at hR
            exact absurd hR (by simp)
          · rw [if_neg hmm] at hR
            intro p hp
            have := Except.ok.inj hR
            rw [← this] at hp
            exact (List.mem_filter.mp hp).1
        exact htail rangeProducts hsub
    · have hP : GetProductsByPrice priceList amount =
          .ok (priceList.filter (fun p => p.price == amount)) := by
        unfold GetProductsByPrice
        rw [if_neg hF0]
      have hFne : (priceList.filter (fun p => p.price == amount)) ≠ [] := by
        simpa [List.isEmpty_iff] using hF0
      have hdesc : description = "" := by
        rcases h2 with hle1 | hd
        · have := List.length_pos.mpr hFne
          omega
        · exact hd
      unfold FindBestProductMatch
      simp only [hP, if_neg h1, hdesc, ne_eq, not_true_eq_false, if_false, and_false,
        ite_self]
  by_cases hmm : amount - amount * (5 / 100) > amount + amount * (5 / 100)
  · have htol : amount * (5 / 100) < 0 := by linarith
    have hwin0 : toleranceWindow priceList amount = [] := by
      unfold toleranceWindow
      rw [List.filter_eq_nil_iff]
      intro a _
      simp only [decide_eq_true_eq]
      intro habs
      have := abs_nonneg (a.price - amount)
      linarith
    have hRerr : GetProductsByPriceRange priceList (amount - amount * (5 / 100))
        (amount + amount * (5 / 100)) =
        .error "minimum price cannot be greater than maximum price" := by
      unfold GetProductsByPriceRange
      rw [if_pos hmm]
    constructor
    · intro _
      rw [hEQ]
      simp only [hRerr]
    · intro hwne
      exact absurd hwin0 hwne
  · have hok : GetProductsByPriceRange priceList (amount - amount * (5 / 100))
        (amount + amount * (5 / 100)) = .ok (toleranceWindow priceList amount) := by
      unfold GetProductsByPriceRange
      rw [if_neg hmm, window_filter_eq]
    constructor
    · intro hwin
      rw [hEQ]
      simp only [hok, hwin, List.length_nil, gt_iff_lt, lt_irrefl, if_false]
    · intro hwne
      have hlen : 0 < (toleranceWindow priceList amount).length := List.length_pos.mpr hwne
      have hM : ∀ q ∈ toleranceWindow priceList amount,
          |amount - q.price| < amount * (5 / 100) + 1 := by
        intro q hq
        have hq' : q ∈ priceList ∧ |q.price - amount| ≤ amount * (5 / 100) := by
          simpa [toleranceWindow] using hq
        rw [abs_sub_comm]
        linarith [hq'.2]
      obtain ⟨best, l1, l2, hres, hsplit, hall, hstrict⟩ :=
        closestLoop_none_spec amount (toleranceWindow priceList amount)
          (amount * (5 / 100) + 1) hM hwne
      refine ⟨best, l1, l2, ?_, hsplit, ?_, ?_⟩
      · rw [hEQ]
        simp only [hok, gt_iff_lt, hlen, if_true]
        exact hres
      · intro q hq
        rw [abs_sub_comm best.price amount, abs_sub_comm q.price amount]
        exact hall q hq
      · intro q hq
        rw [abs_sub_comm best.price amount, abs_sub_comm q.price amount]
        exact hstrict q hq

end prices

namespace prices

/-- Witness for C6: amount 999 with description `"unknown service"`
against a list with no exact-price match and no fuzzy match — the
theorem applies with all hypotheses discharged concretely. -/
theorem findBestProductMatch_tolerance_window_witness :
    (([⟨"Cabin", 650, "NOK"⟩, ⟨"Big hut", 1000, "NOK"⟩, ⟨"Lodge", 960, "NOK"⟩] :
        List Price).filter (fun p => p.price == 999)).length ≠ 1 ∧
    (∀ p ∈ ([⟨"Cabin", 650, "NOK"⟩, ⟨"Big hut", 1000, "NOK"⟩, ⟨"Lodge", 960, "NOK"⟩] :
        List Price), fuzzyMatch "unknown service" p.product = false) ∧
    (toleranceWindow [⟨"Cabin", 650, "NOK"⟩, ⟨"Big hut", 1000, "NOK"⟩, ⟨"Lodge", 960, "NOK"⟩]
        999 ≠ [] →
      ∃ best l1 l2,
        FindBestProductMatch
          [⟨"Cabin", 650, "NOK"⟩, ⟨"Big hut", 1000, "NOK"⟩, ⟨"Lodge", 960, "NOK"⟩]
          999 "unknown service" = some best ∧
        toleranceWindow [⟨"Cabin", 650, "NOK"⟩, ⟨"Big hut", 1000, "NOK"⟩, ⟨"Lodge", 960, "NOK"⟩]
          999 = l1 ++ best :: l2 ∧
        (∀ q ∈ toleranceWindow
            [⟨"Cabin", 650, "NOK"⟩, ⟨"Big hut", 1000, "NOK"⟩, ⟨"Lodge", 960, "NOK"⟩] 999,
          |best.price - 999| ≤ |q.price - 999|) ∧
        (∀ q ∈ l1, |best.price - 999| < |q.price - 999|)) :=
  ⟨by decide, by decide,
   (findBestProductMatch_tolerance_window
      [⟨"Cabin", 650, "NOK"⟩, ⟨"Big hut", 1000, "NOK"⟩, ⟨"Lodge", 960, "NOK"⟩]
      999 "unknown service" (by decide) (Or.inl (by decide)) (by decide)).2⟩

end prices

/-! ## Theorems: status normalization (claim C8) -/

namespace statushelpers

/-- `Char.ofNat` at a valid scalar value round-trips through `toNat`. -/
theorem char_toNat_ofNat_valid {n : Nat} (h : n.isValidChar) :
    (Char.ofNat n).toNat = n := by
  unfold Char.ofNat
  rw [dif_pos h]
  rfl

/-- ASCII lowercase conversion is idempotent. -/
theorem charToLower_idem (c : Char) : c.toLower.toLower = c.toLower := by
  have h1 : c.toLower =
      if c.toNat ≥ 65 ∧ c.toNat ≤ 90 then Char.ofNat (c.toNat + 32) else c := rfl
  by_cases h : c.toNat ≥ 65 ∧ c.toNat ≤ 90
  · have hc : c.toLower = Char.ofNat (c.toNat + 32) := by rw [h1, if_pos h]
    have hv : (c.toNat + 32).isValidChar := Or.inl (by omega)
    have ht : (Char.ofNat (c.toNat + 32)).toNat = c.toNat + 32 :=
      char_toNat_ofNat_valid hv
    rw [hc]
    have h2 : (Char.ofNat (c.toNat + 32)).toLower =
        if (Char.ofNat (c.toNat + 32)).toNat ≥ 65 ∧ (Char.ofNat (c.toNat + 32)).toNat ≤ 90
        then Char.ofNat ((Char.ofNat (c.toNat + 32)).toNat + 32)
        else Char.ofNat (c.toNat + 32) := rfl
    rw [h2, if_neg (by rw [ht]; omega)]
  · have hc : c.toLower = c := by rw [h1, if_neg h]
    rw [hc, hc]

/-- `strings.ToLower` is idempotent (ASCII model). -/
theorem toLower_idem (s : String) :
    strings.ToLower (strings.ToLower s) = strings.ToLower s := by
  rcases s with ⟨data⟩
  simp only [strings.ToLower, List.map_map]
  congr 1
  apply List.map_congr_left
  intro c _
  exact charToLower_idem c

/-- `List.lookup` as a `find?` on the key. -/
theorem lookup_eq_find? (s : String) (tbl : List (String × String)) :
    tbl.lookup s = (tbl.find? (fun kv => s == kv.fst)).map (fun kv => kv.snd) := by
  induction tbl with
  | nil => rfl
  | cons kv rest ih =>
    rcases kv with ⟨k, v⟩
    cases h : (s == k) with
    | true => simp [List.lookup, List.find?, h]
    | false => simp [List.lookup, List.find?, h, ih]

/-- In a table whose keys are pairwise distinct case-insensitively, an
exact lookup hit is also the (unique) case-insensitive `find?` hit. -/
theorem lookup_some_find?_ci (tbl : List (String × String)) (x s m : String)
    (hdist : tbl.Pairwise (fun a b => strings.ToLower a.fst ≠ strings.ToLower b.fst))
    (hx : strings.ToLower x = strings.ToLower s)
    (hl : tbl.lookup x = some m) :
    ∃ kv, tbl.find? (fun kv => strings.ToLower s == strings.ToLower kv.fst) = some kv ∧
      kv.snd = m := by
  induction tbl with
  | nil => simp [List.lookup] at hl
  | cons hd rest ih =>
    rcases hd with ⟨k, v⟩
    rw [List.pairwise_cons] at hdist
    obtain ⟨hhead, hrest⟩ := hdist
    by_cases he : (x == k) = true
    · have hxk : x = k := eq_of_beq he
      have hlv : v = m := by
        rw [List.lookup] at hl
        rw [he] at hl
        exact Option.some.inj hl
      have hpred : (strings.ToLower s == strings.ToLower k) = true := by
        rw [← hx, hxk]
        exact beq_self_eq_true _
      exact ⟨(k, v), by simp [List.find?, hpred], hlv⟩
    · have he' : (x == k) = false := by
        cases hb : (x == k)
        · rfl
        · exact absurd hb he
      have hlr : rest.lookup x = some m := by
        rw [List.lookup] at hl
        rw [he'] at hl
        exact hl
      have hpred : (strings.ToLower s == strings.ToLower k) = false := by
        cases hp : (strings.ToLower s == strings.ToLower k)
        · rfl
        · exfalso
          have hsk : strings.ToLower s = strings.ToLower k := eq_of_beq hp
          rw [lookup_eq_find?] at hlr
          rcases hmap : rest.find? (fun kv => x == kv.fst) with _ | kv0
          · rw [hmap] at hlr
            simp at hlr
          · have hp0 := List.find?_some hmap
            have hmem := List.mem_of_find?_eq_some hmap
            have hx0 : x = kv0.fst := eq_of_beq hp0
            apply hhead kv0 hmem
            rw [← hx0, hx, hsk]
      obtain ⟨kv, hf, hsnd⟩ := ih hrest hlr
      exact ⟨kv, by simp [List.find?, hpred, hf], hsnd⟩

/-- The Stripe two-pass normalization is the single case-insensitive
lookup of the spec. -/
theorem normalizeStripe_eq_ciLookup (status : String) :
    normalizeStripeStatus status = (ciLookup status StripeStatusMapping).getD "unknown" := by
  unfold normalizeStripeStatus ciLookup
  simp only [strings.EqualFold]
  rcases hl : StripeStatusMapping.lookup (strings.ToLower status) with _ | m
  · rcases hf : StripeStatusMapping.find?
        (fun kv => strings.ToLower status == strings.ToLower kv.fst) with _ | kv <;>
      simp [hf]
  · obtain ⟨kv, hf, hsnd⟩ := lookup_some_find?_ci StripeStatusMapping
      (strings.ToLower status) status m (by decide) (toLower_idem status) hl
    rw [hf]
    simp [hsnd]

/-- The Vipps two-pass normalization is the single case-insensitive
lookup of the spec. -/
theorem normalizeVipps_eq_ciLookup (status : String) :
    normalizeVippsStatus status = (ciLookup status VippsStatusMapping).getD "unknown" := by
  unfold normalizeVippsStatus ciLookup
  simp only [strings.EqualFold]
  have hfun : (fun kv : String × String =>
      strings.ToLower (strings.ToLower status) == strings.ToLower kv.fst) =
      (fun kv : String × String => strings.ToLower status == strings.ToLower kv.fst) :=
    funext fun kv => by rw [toLower_idem]
  rw [hfun]
  rcases hl : VippsStatusMapping.lookup status with _ | m
  · rcases hf : VippsStatusMapping.find?
        (fun kv => strings.ToLower status == strings.ToLower kv.fst) with _ | kv <;>
      simp [hf]
  · obtain ⟨kv, hf, hsnd⟩ := lookup_some_find?_ci VippsStatusMapping
      status status m (by decide) rfl hl
    rw [hf]
    simp [hsnd]

/-- The Zettle two-pass normalization is the single case-insensitive
lookup of the spec. -/
theorem normalizeZettle_eq_ciLookup (status : String) :
    normalizeZettleStatus status = (ciLookup status ZettleStatusMapping).getD "unknown" := by
  unfold normalizeZettleStatus ciLookup
  simp only [strings.EqualFold]
  have hfun : (fun kv : String × String =>
      strings.ToLower (strings.ToLower status) == strings.ToLower kv.fst) =
      (fun kv : String × String => strings.ToLower status == strings.ToLower kv.fst) :=
    funext fun kv => by rw [toLower_idem]
  rw [hfun]
  rcases hl : ZettleStatusMapping.lookup status with _ | m
  · rcases hf : ZettleStatusMapping.find?
        (fun kv => strings.ToLower status == strings.ToLower kv.fst) with _ | kv <;>
      simp [hf]
  · obtain ⟨kv, hf, hsnd⟩ := lookup_some_find?_ci ZettleStatusMapping
      status status m (by decide) rfl hl
    rw [hf]
    simp [hsnd]

end statushelpers

namespace statushelpers

/-- The keyword-inference if-chain of the code is the priority-ordered
first-match scan over the spec's keyword category list. -/
theorem infer_eq_specInfer (status : String) :
    inferStatusFromCommonNames status = specInferStatus status := by
  unfold inferStatusFromCommonNames specInferStatus specKeywordCategories
  simp only [List.find?, List.any_cons, List.any_nil, Bool.or_false, Bool.or_assoc]
  cases h1 : (strings.Contains (strings.ToLower status) "success" ||
      (strings.Contains (strings.ToLower status) "complete" ||
        (strings.Contains (strings.ToLower status) "paid" ||
          strings.Contains (strings.ToLower status) "capture"))) with
  | true => simp [h1]
  | false =>
  simp only [h1, Bool.false_eq_true, if_false]
  cases h2 : (strings.Contains (strings.ToLower status) "pending" ||
      (strings.Contains (strings.ToLower status) "waiting" ||
        strings.Contains (strings.ToLower status) "initiated")) with
  | true => simp [h2]
  | false =>
  simp only [h2, Bool.false_eq_true, if_false]
  cases h3 : (strings.Contains (strings.ToLower status) "processing" ||
      strings.Contains (strings.ToLower status) "authorized") with
  | true => simp [h3]
  | false =>
  simp only [h3, Bool.false_eq_true, if_false]
  cases h4 : (strings.Contains (strings.ToLower status) "fail" ||
      (strings.Contains (strings.ToLower status) "reject" ||
        strings.Contains (strings.ToLower status) "decline")) with
  | true => simp [h4]
  | false =>
  simp only [h4, Bool.false_eq_true, if_false]
  cases h5 : (strings.Contains (strings.ToLower status) "cancel" ||
      (strings.Contains (strings.ToLower status) "void" ||
        strings.Contains (strings.ToLower status) "abandon")) with
  | true => simp [h5]
  | false =>
  simp only [h5, Bool.false_eq_true, if_false]
  cases h6 : strings.Contains (strings.ToLower status) "refund" with
  | true => simp [h6]
  | false =>
  simp only [h6, Bool.false_eq_true, if_false]
  cases h7 : (strings.Contains (strings.ToLower status) "expir" ||
      strings.Contains (strings.ToLower status) "timeout") with
  | true => simp [h7]
  | false => simp [h7]

/-- **C8.** Status normalization is the spec's two-step lookup: for a
known provider (compared on the lowercased source tag) the trimmed,
case-normalized raw status is looked up case-insensitively in that
provider's explicit mapping table, with `unknown` for unmapped
statuses; for any other source the lowercased raw status is scanned for
keyword substrings in the fixed priority order success → pending →
processing → failure → cancellation → refund → expiry, with `unknown`
when nothing matches.  In particular `CAPTURE`/vipps maps to
`succeeded`, `payment_failed` from an unknown provider infers `failed`,
and an unmapped status of a known provider is `unknown`. -/
theorem normalizeStatus_two_step_lookup :
    (∀ raw source, NormalizeTransactionStatus raw source = specNormalizeStatus raw source) ∧
    NormalizeTransactionStatus "CAPTURE" "vipps" = "succeeded" ∧
    NormalizeTransactionStatus "payment_failed" "some_new_provider" = "failed" ∧
    NormalizeTransactionStatus "totally_new_status" "stripe" = "unknown" := by
  refine ⟨?_, by decide, by decide, by decide⟩
  intro raw source
  unfold NormalizeTransactionStatus specNormalizeStatus specProviderTable
  cases hs1 : (strings.ToLower source == "stripe") with
  | true =>
    simp only [hs1, if_true]
    exact normalizeStripe_eq_ciLookup _
  | false =>
  simp only [hs1, Bool.false_eq_true, if_false]
  cases hs2 : (strings.ToLower source == "vipps") with
  | true =>
    simp only [hs2, if_true]
    exact normalizeVipps_eq_ciLookup _
  | false =>
  simp only [hs2, Bool.false_eq_true, if_false]
  cases hs3 : (strings.ToLower source == "zettle") with
  | true =>
    simp only [hs3, if_true]
    exact normalizeZettle_eq_ciLookup _
  | false =>
  simp only [hs3, Bool.false_eq_true, if_false]
  exact infer_eq_specInfer _

end statushelpers

namespace repo

/-- Witness for C9: enrichment with a matching price list preserves the
identity field, and enrichment without a price service is the
identity. -/
theorem enrichTransactionWithProduct_frame_witness :
    (enrichTransactionWithProduct (some [⟨"Cabin", 650, "NOK"⟩])
      (sampleTransaction "a" 5)).id = (sampleTransaction "a" 5).id ∧
    enrichTransactionWithProduct none (sampleTransaction "a" 5) =
      sampleTransaction "a" 5 := by
  obtain ⟨hframe, _, _⟩ := enrichTransactionWithProduct_frame
    (some [⟨"Cabin", 650, "NOK"⟩]) (sampleTransaction "a" 5)
  obtain ⟨_, _, hnone⟩ := enrichTransactionWithProduct_frame
    none (sampleTransaction "a" 5)
  exact ⟨hframe.1, hnone rfl⟩

end repo
